import Mathlib

/-!
Verification development for the GAT (graph attention network) layer and
training loops of the `full-graph-mini-batch-convergence` repository.

The shallow embedding below translates `src/models/gat_with_projection.py`
(class `GATConv` and the training / validation helpers) and
`src/experiments/gat/mini_batch.py` / `full_graph.py` into Lean.

Modelling decisions:
* tensor values are rationals (`ℚ`); a tensor indexed by nodes is a function
  `ℕ → Fin nf → ℚ`, a per-edge tensor is indexed by the position of the edge
  in the edge list of the graph;
* `torch.exp` (inside `dgl.ops.edge_softmax`) and `torch.pow (·, -0.5)` are
  passed in as explicit function parameters `expF : ℚ → ℚ` and
  `invSqrt : ℕ → ℚ`; theorems that need a property of them (positivity of
  `exp`, `1 ^ (-1/2) = 1`) take it as a hypothesis, which the real functions
  satisfy;
* the `nn.Linear` sub-modules of `GATConv` are arbitrary functions: every
  theorem proved for arbitrary functions in particular holds for linear maps;
* randomness (`torch.randperm` for edge dropout, the Bernoulli masks of
  `nn.Dropout`) is threaded explicitly: the permutation is an
  `Equiv.Perm (Fin numEdges)` argument, and the attention-dropout mask is an
  explicit per-element function `adrop`; in evaluation mode (or with rate 0)
  `nn.Dropout` is the identity, modelled by instantiating `adrop` with
  `fun _ _ q => q`;
* the Python `assert False` on zero-in-degree destinations makes `forward`
  return in `Except`, with `.error` modelling the `AssertionError`.
-/

namespace GATRepo

/-- A DGL graph or block as consumed by `GATConv.forward`: a directed
multigraph given by its edge list of (source id, destination id) pairs.
For a block (`isBlock = true`) the destination nodes are the ids
`0 .. numDstNodes - 1`, a prefix of the source-node ids, matching
`node_inputs_dst = node_inputs[:g.num_dst_nodes()]`. -/
structure DGLGraph where
  numSrcNodes : ℕ
  numDstNodes : ℕ
  isBlock : Bool
  edges : List (ℕ × ℕ)

/-- Embedding of `g.num_edges()`. -/
def DGLGraph.numEdges (g : DGLGraph) : ℕ := g.edges.length

/-- Embedding of `g.in_degrees()` at destination node `v`: the number of edges whose
destination endpoint is `v`. -/
def DGLGraph.inDeg (g : DGLGraph) (v : ℕ) : ℕ :=
  g.edges.countP (fun e => e.2 == v)

/-- Embedding of `g.out_degrees()` at source node `u`: the number of edges whose source
endpoint is `u`. -/
def DGLGraph.outDeg (g : DGLGraph) (u : ℕ) : ℕ :=
  g.edges.countP (fun e => e.1 == u)

/-- Message of the Python `AssertionError` raised by `assert False`. -/
def assertionError : String := "AssertionError"

/-- Message of the `TypeError` raised by `nn.Parameter` on non-tensor data. -/
def parameterTypeError : String := "TypeError: nn.Parameter data must be a Tensor"

/-- Message of the Python `UnboundLocalError` on a read of an unassigned local. -/
def unboundLocalError : String := "UnboundLocalError: local variable step referenced before assignment"

/-- Embedding of `nn.LeakyReLU(negative_slope)`, applied elementwise. -/
def leakyRelu (slope : ℚ) (x : ℚ) : ℚ :=
  if 0 ≤ x then x else slope * x

/-- The parameter/configuration state of a `GATConv` module
(`GATConv.__init__`, lines 15-65).  `fcDst` is `some _` exactly when the
module was built with `residual=True` (then `bias = none`); with
`residual=False` the code sets `_fc_dst = None` and a `bias` parameter.
`attnFcDst` is `some _` exactly when `use_attn_dst=True`, `attnFcEdge` when
`edge_in_feats > 0`.  The linear sub-modules are modelled as arbitrary
functions from input features to per-head (per-output-feature) values. -/
structure GATConv (nf ne D H : ℕ) where
  fcSrc : (Fin nf → ℚ) → Fin H → Fin D → ℚ
  fcDst : Option ((Fin nf → ℚ) → Fin H → Fin D → ℚ)
  bias : Option (Fin H → Fin D → ℚ)
  attnFcSrc : (Fin nf → ℚ) → Fin H → ℚ
  attnFcDst : Option ((Fin nf → ℚ) → Fin H → ℚ)
  attnFcEdge : Option ((Fin ne → ℚ) → Fin H → ℚ)
  norm : String
  negativeSlope : ℚ
  edgeDropout : ℚ
  activation : Option (ℚ → ℚ)
  allowZeroInDegree : Bool

namespace GATConv

variable {nf ne D H : ℕ}

/-- Per-edge attention logits (lines 123-146 of `gat_with_projection.py`):
`attn_src` of the source node of the edge, plus `attn_dst` of its destination node
when `_attn_fc_dst` is present (`fn.u_add_v`, line 133; otherwise
`fn.copy_u`, line 135), plus the edge term when edge inputs are given,
then `leaky_relu`.  The destination-side features `xdst` are passed
separately, mirroring how the code uses `node_inputs_dst` for the
destination score only. -/
def attnLogits (c : GATConv nf ne D H) (g : DGLGraph)
    (x xdst : ℕ → Fin nf → ℚ) (eIn : Option (ℕ → Fin ne → ℚ))
    (i : Fin g.edges.length) (h : Fin H) : ℚ :=
  let srcNode := (g.edges.get i).1
  let dstNode := (g.edges.get i).2
  let nodeScore :=
    match c.attnFcDst with
    | some fd => c.attnFcSrc (x srcNode) h + fd (xdst dstNode) h
    | none => c.attnFcSrc (x srcNode) h
  let withEdge :=
    match eIn, c.attnFcEdge with
    | some ef, some fe => nodeScore + fe (ef i.1) h
    | _, _ => nodeScore
  leakyRelu c.negativeSlope withEdge

end GATConv

/-- Embedding of `dgl.ops.edge_softmax` restricted to an edge subset `S` (the `eids`
argument): the weight of edge `i` is `exp` of its logit divided by the sum of
`exp` over the edges of `S` with the same destination node as `i` (segment softmax
grouped by destination endpoint). -/
def edge_softmax (g : DGLGraph) (expF : ℚ → ℚ)
    (S : Finset (Fin g.edges.length)) (e : Fin g.edges.length → Fin H → ℚ)
    (i : Fin g.edges.length) (h : Fin H) : ℚ :=
  expF (e i h) /
    ∑ j in S.filter (fun j => (g.edges.get j).2 = (g.edges.get i).2),
      expF (e j h)

/-- Embedding of `bound = int(g.num_edges() * self._edge_dropout)` (line 150): Python
`int` truncation of the non-negative product is the floor. -/
def dropoutBound (E : ℕ) (p : ℚ) : ℕ := (⌊(E : ℚ) * p⌋).toNat

/-- The surviving edge set `eids = perm[bound:]` (line 151): edge `i`
survives iff its position in the random permutation is `≥ bound`. -/
def survivors (g : DGLGraph) (p : ℚ)
    (perm : Equiv.Perm (Fin g.edges.length)) : Finset (Fin g.edges.length) :=
  Finset.univ.filter (fun i => dropoutBound g.edges.length p ≤ (perm.symm i : ℕ))

namespace GATConv

variable {nf ne D H : ℕ}

/-- The per-edge attention weights stored in the edata attn field
(lines 148-157).  In training mode with a positive edge-dropout rate, the
non-surviving edges get weight `0` and the surviving ones the
attention-dropout image of the segment softmax computed over the surviving
subset only; otherwise the segment softmax over all edges, through
attention dropout. `adrop` is the elementwise stochastic `nn.Dropout` map
(the identity in evaluation mode or at rate 0). -/
def attn (c : GATConv nf ne D H) (expF : ℚ → ℚ) (training : Bool)
    (adrop : ℕ → Fin H → ℚ → ℚ) (g : DGLGraph)
    (x : ℕ → Fin nf → ℚ) (eIn : Option (ℕ → Fin ne → ℚ))
    (perm : Equiv.Perm (Fin g.edges.length))
    (i : Fin g.edges.length) (h : Fin H) : ℚ :=
  if training = true ∧ 0 < c.edgeDropout then
    if i ∈ survivors g c.edgeDropout perm then
      adrop i.1 h
        (edge_softmax g expF (survivors g c.edgeDropout perm)
          (c.attnLogits g x x eIn) i h)
    else 0
  else
    adrop i.1 h
      (edge_softmax g expF Finset.univ (c.attnLogits g x x eIn) i h)

/-- The source-side degree normalization factor (lines 110-121): for
norm "both" the clamped out-degree to the power -0.5, for norm "left"
its reciprocal, otherwise no scaling.  `clamp(min=1)` is `max · 1`. -/
def srcNormFactor (c : GATConv nf ne D H) (invSqrt : ℕ → ℚ)
    (g : DGLGraph) (u : ℕ) : ℚ :=
  if c.norm = "both" then invSqrt (max (g.outDeg u) 1)
  else if c.norm = "left" then 1 / ((max (g.outDeg u) 1 : ℕ) : ℚ)
  else 1

/-- The destination-side degree normalization factor (lines 163-174),
mirroring `srcNormFactor` with the clamped in-degree and norm "right". -/
def dstNormFactor (c : GATConv nf ne D H) (invSqrt : ℕ → ℚ)
    (g : DGLGraph) (v : ℕ) : ℚ :=
  if c.norm = "both" then invSqrt (max (g.inDeg v) 1)
  else if c.norm = "right" then 1 / ((max (g.inDeg v) 1 : ℕ) : ℚ)
  else 1

/-- Embedding of `feat_fc_src` after the optional left/symmetric normalization
(lines 105-121): the source projection scaled by `srcNormFactor`. -/
def featFcSrcN (c : GATConv nf ne D H) (invSqrt : ℕ → ℚ) (g : DGLGraph)
    (x : ℕ → Fin nf → ℚ) (u : ℕ) (h : Fin H) (d : Fin D) : ℚ :=
  c.srcNormFactor invSqrt g u * c.fcSrc (x u) h d

/-- The weighted aggregation `update_all(u_mul_e(...), sum(...))`
(lines 159-161): for destination `v`, the sum over incoming edges of the
(normalized) source projection times the attention weight of the edge. -/
def aggregated (c : GATConv nf ne D H) (expF : ℚ → ℚ) (invSqrt : ℕ → ℚ)
    (training : Bool) (adrop : ℕ → Fin H → ℚ → ℚ) (g : DGLGraph)
    (x : ℕ → Fin nf → ℚ) (eIn : Option (ℕ → Fin ne → ℚ))
    (perm : Equiv.Perm (Fin g.edges.length))
    (v : ℕ) (h : Fin H) (d : Fin D) : ℚ :=
  ∑ i in Finset.univ.filter (fun i : Fin g.edges.length => (g.edges.get i).2 = v),
    c.featFcSrcN invSqrt g x (g.edges.get i).1 h d *
      c.attn expF training adrop g x eIn perm i h

/-- The value computed by `GATConv.forward` for destination node `v`, head
`h`, output feature `d` (lines 100-184, after the zero-in-degree check):
aggregation, optional right normalization, residual projection of the
destination features (`x` restricted to destinations, line 101/103) or the
bias parameter, then the optional activation. -/
def forwardBody (c : GATConv nf ne D H) (expF : ℚ → ℚ) (invSqrt : ℕ → ℚ)
    (training : Bool) (adrop : ℕ → Fin H → ℚ → ℚ) (g : DGLGraph)
    (x : ℕ → Fin nf → ℚ) (eIn : Option (ℕ → Fin ne → ℚ))
    (perm : Equiv.Perm (Fin g.edges.length))
    (v : ℕ) (h : Fin H) (d : Fin D) : ℚ :=
  let y := c.dstNormFactor invSqrt g v *
    c.aggregated expF invSqrt training adrop g x eIn perm v h d
  let y2 :=
    match c.fcDst with
    | some fd => y + fd (x v) h d
    | none => y + (c.bias.getD (fun _ _ => 0)) h d
  match c.activation with
  | some a => a y2
  | none => y2

/-- Embedding of `GATConv.forward` (lines 89-184).  When zero-in-degree destinations are
disallowed and one exists, the Python `assert False` (line 98) raises; this
is the `.error` branch.  Otherwise the computation proceeds and returns the
output tensor. -/
def forward (c : GATConv nf ne D H) (expF : ℚ → ℚ) (invSqrt : ℕ → ℚ)
    (training : Bool) (adrop : ℕ → Fin H → ℚ → ℚ) (g : DGLGraph)
    (x : ℕ → Fin nf → ℚ) (eIn : Option (ℕ → Fin ne → ℚ))
    (perm : Equiv.Perm (Fin g.edges.length)) :
    Except String (ℕ → Fin H → Fin D → ℚ) :=
  if c.allowZeroInDegree = false ∧
      ((List.range g.numDstNodes).any (fun v => g.inDeg v == 0)) = true then
    .error assertionError
  else
    .ok (fun v h d => c.forwardBody expF invSqrt training adrop g x eIn perm v h d)

end GATConv

/-- The argument universe of `torch.nn.Parameter`: the data passed in is
either a plain Python int or a tensor (modelled by its entries). -/
inductive TorchData where
  | scalar (n : ℕ)
  | tensor (entries : ℕ → ℚ)

/-- Embedding of `torch.nn.Parameter(data)`: it requires a tensor; a plain int raises
`TypeError` (`torch.Tensor._make_subclass` rejects non-tensor data). -/
def nnParameter : TorchData → Except String (ℕ → ℚ)
  | .scalar _ => .error parameterTypeError
  | .tensor entries => .ok entries

/-- The residual/bias branch of `GATConv.__init__` (lines 44-50): with
`residual=True` a destination projection is created and `bias = None`; with
`residual=False` the code evaluates `nn.Parameter(out_feats * num_heads)`,
passing the plain integer product where a tensor is required.  Returns
(whether a `_fc_dst` module was created, the bias parameter). -/
def gatconvInitResidualBranch (outFeats numHeads : ℕ) (residual : Bool) :
    Except String (Bool × Option (ℕ → ℚ)) :=
  if residual then .ok (true, none)
  else (nnParameter (.scalar (outFeats * numHeads))).map (fun b => (false, some b))

/-- Modelled from the spec: `utils.Callback`, the early-stopping /
checkpointing helper, is not among the repository sources (only its callers
in `experiments/gat/mini_batch.py` and `full_graph.py` are).  Spec §4.3 and
§3: after each epoch, the monitored metric (here: validation loss, improved
means strictly smaller) is compared against the best-so-far; on improvement
the retained best snapshot (epoch index and value) is replaced and the
patience counter reset, otherwise the counter is incremented; `should_stop`
holds once the counter reaches the configured patience threshold.  `best`
holds the retained best record `(epoch, monitored loss)`. -/
structure Callback where
  patience : ℕ
  best : Option (ℕ × ℚ)
  counter : ℕ

namespace Callback

/-- Modelled from the spec: `Callback.create(epoch, ..., valid_loss, ...,
model)` — replace-on-improve of the best snapshot, with patience counter
reset on improvement and increment otherwise (spec §4.3 "Checkpointing"). -/
def create (cb : Callback) (epoch : ℕ) (validLoss : ℚ) : Callback :=
  match cb.best with
  | none => { cb with best := some (epoch, validLoss), counter := 0 }
  | some (bestEpoch, bestLoss) =>
      if validLoss < bestLoss then
        { cb with best := some (epoch, validLoss), counter := 0 }
      else
        { cb with best := some (bestEpoch, bestLoss), counter := cb.counter + 1 }

/-- Modelled from the spec: `Callback.should_stop` — the patience counter has
reached the configured threshold (spec §4.3 "Early stopping"). -/
def shouldStop (cb : Callback) : Bool :=
  cb.patience ≤ cb.counter

end Callback

/-- The epoch loop of `log_run` (`experiments/gat/mini_batch.py`,
lines 181-211) with the monitored validation-loss sequence `L` abstracted as
a function of the epoch index: run up to `fuel` further epochs starting at
`epoch`, feed the loss of each epoch to `Callback.create`, and break out of the
loop as soon as `should_stop` holds.  Returns the number of epochs actually
run together with the final callback state. -/
def logRunLoop (L : ℕ → ℚ) : ℕ → ℕ → Callback → ℕ × Callback
  | 0, epoch, cb => (epoch, cb)
  | fuel + 1, epoch, cb =>
      let cb' := cb.create epoch (L epoch)
      if cb'.shouldStop then (epoch + 1, cb')
      else logRunLoop L fuel (epoch + 1) cb'

/-- The whole `for epoch in range(args.num_epochs)` loop of `log_run` with
early stopping, starting from a fresh `Callback(patience, monitor)`. -/
def log_run (patience numEpochs : ℕ) (L : ℕ → ℚ) : ℕ × Callback :=
  logRunLoop L numEpochs 0 { patience := patience, best := none, counter := 0 }

/-- A torch module as seen by the training loop: its learnable parameters
(abstract type `P`) and the `training` flag toggled by `model.train()` /
`model.eval()`. -/
structure TorchModule (P : Type) where
  params : P
  training : Bool

/-- Embedding of `validate` (`experiments/gat/full_graph.py` lines 48-73, and the
structurally identical `validate` of `gat_with_projection.py` lines
399-422): `model.eval()` clears the training flag, the forward pass and the
metric computations run inside `with torch.no_grad():` — modelled by the
forward function receiving `false` for its gradient-tracking flag — and the
function returns the (time, loss, score) triple.  Wall-clock time
(`default_timer` differences) is outside the embedding and modelled as `0`.
The loss/score maps receive the logits and the labels (the `[mask]`
selections are part of those maps).  The module is returned to expose its
post-call state. -/
def validate {P G I O L : Type}
    (forwardFn : Bool → P → G → I → O)
    (lossFn : O → L → ℚ) (scoreFn : O → L → ℚ)
    (m : TorchModule P) (g : G) (inputs : I) (labels : L) :
    TorchModule P × (ℚ × ℚ × ℚ) :=
  let mEval : TorchModule P := { m with training := false }
  let logits := forwardFn false mEval.params g inputs
  let loss := lossFn logits labels
  let score := scoreFn logits labels
  (mEval, (0, loss, score))

/-- The mini-batch training pass `train` (`experiments/gat/mini_batch.py`
lines 16-56; `train_mini_batch` of `gat_with_projection.py` lines 326-365
has the same loop/average structure): iterate over the batches yielded by the
dataloader
accumulating loss and score, then divide the totals by `step + 1`, where the
Python local `step` is only bound by the `for step, ... in
enumerate(dataloader)` loop.  When the dataloader yields no batches, `step`
is unbound at the division and Python raises `UnboundLocalError`; the
per-batch gradient update is abstracted into the per-batch loss/score maps.
Wall-clock time is modelled as `0`. -/
def train {β : Type} (batchLoss batchScore : β → ℚ) (dataloader : List β) :
    Except String (ℚ × ℚ × ℚ) :=
  let totals := dataloader.foldl
    (fun acc b => (acc.1 + batchLoss b, acc.2 + batchScore b)) ((0 : ℚ), (0 : ℚ))
  let step : Option ℕ :=
    match dataloader with
    | [] => none
    | _ => some (dataloader.length - 1)
  match step with
  | none => .error unboundLocalError
  | some s => .ok (0, totals.1 / ((s : ℚ) + 1), totals.2 / ((s : ℚ) + 1))

/-! ## Concrete instances used by witnesses and counterexamples -/

/-- A trivially configured `GATConv` (no residual, zero linear maps, no
normalization, no dropout) used to instantiate theorems. -/
def convSimple : GATConv 1 0 1 1 :=
  { fcSrc := fun _ _ _ => 0
    fcDst := none
    bias := some (fun _ _ => 0)
    attnFcSrc := fun _ _ => 0
    attnFcDst := none
    attnFcEdge := none
    norm := "none"
    negativeSlope := 1/5
    edgeDropout := 0
    activation := none
    allowZeroInDegree := true }

/-- The trivial convolution with zero-in-degree destinations disallowed. -/
def convNoZeroIn : GATConv 1 0 1 1 :=
  { convSimple with allowZeroInDegree := false }

/-- The trivial convolution with edge-dropout fraction 26/100. -/
def convDrop : GATConv 1 0 1 1 :=
  { convSimple with edgeDropout := 26/100 }

/-- A convolution with left normalization whose source projection reads the
input feature through, used for the block/full-graph comparison. -/
def convLeftNorm : GATConv 1 0 1 1 :=
  { convSimple with norm := "left", fcSrc := fun f _ _ => f 0 }

/-- A one-node graph with a single self-loop edge. -/
def g1 : DGLGraph :=
  { numSrcNodes := 1, numDstNodes := 1, isBlock := false, edges := [(0, 0)] }

/-- A two-node graph where destination node 0 has in-degree zero. -/
def gNoIn : DGLGraph :=
  { numSrcNodes := 2, numDstNodes := 2, isBlock := false, edges := [(0, 1)] }

/-- A one-node graph with ten parallel self-loop edges. -/
def g10 : DGLGraph :=
  { numSrcNodes := 1, numDstNodes := 1, isBlock := false,
    edges := List.replicate 10 (0, 0) }

/-- A three-node full graph in which node 0 has two outgoing edges, to
nodes 1 and 2. -/
def gFull3 : DGLGraph :=
  { numSrcNodes := 3, numDstNodes := 3, isBlock := false,
    edges := [(0, 1), (0, 2)] }

/-- A sampled block for destination node 1 of `gFull3`: block node 0 is
graph node 1 (the destination), block node 1 is graph node 0, and the single
block edge is the graph edge (0, 1). -/
def gBlock3 : DGLGraph :=
  { numSrcNodes := 2, numDstNodes := 1, isBlock := true, edges := [(1, 0)] }

/-- The block-to-graph node id mapping for `gBlock3` inside `gFull3`. -/
def sigma3 : ℕ → ℕ := fun n => if n = 0 then 1 else 0

/-- All-ones node features of width one. -/
def onesFeat : ℕ → Fin 1 → ℚ := fun _ _ => 1

/-- All-zeros node features of width one. -/
def zeroFeat : ℕ → Fin 1 → ℚ := fun _ _ => 0

/-- The identity attention-dropout mask: `nn.Dropout` in evaluation mode or
with rate 0. -/
def idDrop (H : ℕ) : ℕ → Fin H → ℚ → ℚ := fun _ _ q => q

/-- A positive stand-in for `torch.exp` used in witnesses. -/
def oneExp : ℚ → ℚ := fun _ => 1

/-- A stand-in for the clamped-degree `pow(-0.5)` used in witnesses; it
agrees with the real function at degree 1. -/
def oneInvSqrt : ℕ → ℚ := fun _ => 1

/-- A monitored-loss sequence that strictly decreases up to epoch 2
(values 10, 9, 8) and strictly increases afterwards (9, 10, 11, ...). -/
def lossValley : ℕ → ℚ := fun n => if n ≤ 2 then 10 - (n : ℚ) else (n : ℚ) + 6

/-- A monitored-loss sequence that strictly increases after epoch 1
(values 1, 5, 6, 7, ...) but whose epoch-1 value is worse than epoch 0. -/
def lossRise : ℕ → ℚ := fun n => if n = 0 then 1 else (n : ℚ) + 4

/-- A concrete module state over natural-number parameters. -/
def moduleW : TorchModule ℕ := { params := 5, training := true }

/-! ## Helper lemmas -/

theorem card_filter_univ_fin (n : ℕ) (p : Fin n → Prop) [DecidablePred p] :
    (Finset.univ.filter p).card
      = (List.finRange n).countP (fun i => decide (p i)) := by
  rw [List.countP_eq_length_filter]
  rfl

theorem inDeg_eq_card (g : DGLGraph) (v : ℕ) :
    g.inDeg v = (Finset.univ.filter
      (fun i : Fin g.edges.length => (g.edges.get i).2 = v)).card := by
  unfold DGLGraph.inDeg
  rw [card_filter_univ_fin]
  conv_lhs => rw [← List.finRange_map_get g.edges]
  rw [List.countP_map]
  congr 1

theorem foldl_pair_sum {β : Type} (bl bs : β → ℚ) (l : List β) (a b : ℚ) :
    List.foldl (fun acc x => (acc.1 + bl x, acc.2 + bs x)) (a, b) l
      = (a + (l.map bl).sum, b + (l.map bs).sum) := by
  induction l generalizing a b with
  | nil => simp
  | cons hd tl ih => simp [ih, add_assoc]

/-! ## Claims -/

/-- C5: with `use_attn_dst` disabled (`_attn_fc_dst is None`), the per-edge
attention logits computed in `GATConv.forward` do not depend on the
destination-node features: two runs that differ only in the
destination-side features produce identical logits, so only the source and
edge terms affect them. -/
theorem attn_logits_ignore_dst_features {nf ne D H : ℕ}
    (c : GATConv nf ne D H) (hc : c.attnFcDst = none) (g : DGLGraph)
    (x xdst xdst' : ℕ → Fin nf → ℚ)
    (eIn : Option (ℕ → Fin ne → ℚ)) (i : Fin g.edges.length) (h : Fin H) :
    c.attnLogits g x xdst eIn i h = c.attnLogits g x xdst' eIn i h := by
  simp only [GATConv.attnLogits, hc]

/-- Witness for C5: the hypothesis holds and the conclusion is obtained from
the theorem at a concrete instance. -/
theorem attn_logits_ignore_dst_features_witness :
    convSimple.attnFcDst = none ∧
      convSimple.attnLogits g1 zeroFeat zeroFeat none ⟨0, by decide⟩ ⟨0, by decide⟩
        = convSimple.attnLogits g1 zeroFeat onesFeat none ⟨0, by decide⟩ ⟨0, by decide⟩ :=
  ⟨rfl, attn_logits_ignore_dst_features convSimple rfl g1 zeroFeat zeroFeat
    onesFeat none ⟨0, by decide⟩ ⟨0, by decide⟩⟩

/-- C9: `validate` performs the forward computation with gradient tracking
disabled and leaves every model parameter unchanged: the parameters of the
returned module state equal the parameters before the call, and the results
depend only on the gradient-disabled behaviour of the forward function
(together with the loss/score maps); only the (time, loss, score) metrics
are produced. -/
theorem validate_preserves_params {P G I O L : Type}
    (forwardFn : Bool → P → G → I → O) (lossFn scoreFn : O → L → ℚ)
    (m : TorchModule P) (g : G) (inputs : I) (labels : L) :
    ((validate forwardFn lossFn scoreFn m g inputs labels).1.params = m.params)
      ∧ ∀ forwardFn' : Bool → P → G → I → O,
          (∀ p gr inp, forwardFn false p gr inp = forwardFn' false p gr inp) →
          validate forwardFn lossFn scoreFn m g inputs labels
            = validate forwardFn' lossFn scoreFn m g inputs labels := by
  refine ⟨rfl, fun f' hf => ?_⟩
  simp only [validate]
  rw [hf]

/-- Witness for C9 at a concrete module whose forward map behaves
differently with gradient tracking enabled. -/
theorem validate_preserves_params_witness :
    ((validate (fun b (p : ℕ) (_ : Unit) (_ : Unit) => if b then p + 1 else p)
        (fun o _ => (o : ℚ)) (fun o _ => (o : ℚ)) moduleW () () ()).1.params
      = moduleW.params)
    ∧ validate (fun b (p : ℕ) (_ : Unit) (_ : Unit) => if b then p + 1 else p)
        (fun o _ => (o : ℚ)) (fun o _ => (o : ℚ)) moduleW () () ()
      = validate (fun b (p : ℕ) (_ : Unit) (_ : Unit) => if b then p + 2 else p)
        (fun o _ => (o : ℚ)) (fun o _ => (o : ℚ)) moduleW () () () :=
  ⟨(validate_preserves_params _ _ _ moduleW () () ()).1,
    (validate_preserves_params _ _ _ moduleW () () ()).2
      (fun b p _ _ => if b then p + 2 else p) (fun _ _ _ => rfl)⟩

/-- C10: the mini-batch training pass raises an unbound-variable error when
the dataloader yields zero batches (the Python local `step` is never bound,
so the post-loop division by `step + 1` fails); for a non-empty dataloader
it returns the (time, loss, score) tuple whose loss and score are the
accumulated totals divided by `step + 1 = number of batches`. -/
theorem train_empty_dataloader_error {β : Type} (batchLoss batchScore : β → ℚ)
    (dataloader : List β) :
    (dataloader = [] →
        train batchLoss batchScore dataloader = .error unboundLocalError)
    ∧ (dataloader ≠ [] →
        train batchLoss batchScore dataloader
          = .ok (0, (dataloader.map batchLoss).sum / (dataloader.length : ℚ),
              (dataloader.map batchScore).sum / (dataloader.length : ℚ))) := by
  constructor
  · intro he
    subst he
    rfl
  · intro hne
    match dataloader, hne with
    | b :: tl, _ =>
      unfold train
      simp only [foldl_pair_sum, zero_add]
      have hlen : ((b :: tl).length - 1 : ℕ) + 1 = (b :: tl).length := by
        simp
      have hcast : (((b :: tl).length - 1 : ℕ) : ℚ) + 1 = ((b :: tl).length : ℚ) := by
        exact_mod_cast congrArg (fun n : ℕ => (n : ℚ)) hlen
      rw [hcast]

/-- Witness for C10: both branches at concrete dataloaders. -/
theorem train_empty_dataloader_error_witness :
    train (fun _ : Unit => (3 : ℚ)) (fun _ => (1 : ℚ)) [] = .error unboundLocalError
    ∧ train (fun _ : Unit => (3 : ℚ)) (fun _ => (1 : ℚ)) [()]
        = .ok (0, ([()].map (fun _ : Unit => (3 : ℚ))).sum / (([()] : List Unit).length : ℚ),
            ([()].map (fun _ : Unit => (1 : ℚ))).sum / (([()] : List Unit).length : ℚ)) :=
  ⟨(train_empty_dataloader_error _ _ []).1 rfl,
    (train_empty_dataloader_error _ _ [()]).2 (List.cons_ne_nil _ _)⟩

/-- C4 (code bug): the claim says a `GATConv` constructed with residual
disabled has a bias parameter that is added to every forward output — and
`forward` indeed adds `self.bias` when `_fc_dst is None` — but the
constructor cannot produce such a module: line 50 evaluates
`nn.Parameter(out_feats * num_heads)`, handing the plain integer product to
`nn.Parameter`, which requires a tensor and raises `TypeError`.  Evaluating
the embedded constructor branch at `out_feats=8`, `num_heads=2`,
`residual=False` yields that error instead of a module with a bias. -/
theorem residual_disabled_bias_init_type_error :
    gatconvInitResidualBranch 8 2 false = .error parameterTypeError := rfl

/-- C6: with `allow_zero_in_degree` disabled, a forward call on a graph
with a zero-in-degree destination node fails with the assertion (an error
outcome, not a normal return); with it enabled, or when every destination
node has in-degree at least 1, the assertion does not fire and `forward`
returns the computed output. -/
theorem zero_in_degree_assertion {nf ne D H : ℕ} (c : GATConv nf ne D H)
    (expF : ℚ → ℚ) (invSqrt : ℕ → ℚ) (training : Bool)
    (adrop : ℕ → Fin H → ℚ → ℚ) (g : DGLGraph) (x : ℕ → Fin nf → ℚ)
    (eIn : Option (ℕ → Fin ne → ℚ)) (perm : Equiv.Perm (Fin g.edges.length)) :
    (c.allowZeroInDegree = false → (∃ v, v < g.numDstNodes ∧ g.inDeg v = 0) →
        c.forward expF invSqrt training adrop g x eIn perm = .error assertionError)
    ∧ ((c.allowZeroInDegree = true ∨ ∀ v, v < g.numDstNodes → 1 ≤ g.inDeg v) →
        c.forward expF invSqrt training adrop g x eIn perm
          = .ok (fun v h d =>
              c.forwardBody expF invSqrt training adrop g x eIn perm v h d)) := by
  constructor
  · intro hallow hex
    unfold GATConv.forward
    rw [if_pos]
    refine ⟨hallow, ?_⟩
    rw [List.any_eq_true]
    obtain ⟨v, hv, hz⟩ := hex
    exact ⟨v, List.mem_range.mpr hv, by simpa using hz⟩
  · intro hok
    unfold GATConv.forward
    rw [if_neg]
    rintro ⟨h1, h2⟩
    rcases hok with hz | hdeg
    · rw [hz] at h1
      cases h1
    · rw [List.any_eq_true] at h2
      obtain ⟨v, hv, hz⟩ := h2
      have hge := hdeg v (List.mem_range.mp hv)
      have hz0 : g.inDeg v = 0 := by simpa using hz
      omega

/-- Witness for C6: the assertion fires on a graph whose destination node 0
has no incoming edge when zero in-degree is disallowed, and the same
forward call succeeds on a graph whose every destination has an incoming
edge. -/
theorem zero_in_degree_assertion_witness :
    convNoZeroIn.forward oneExp oneInvSqrt false (idDrop 1) gNoIn zeroFeat none
        (Equiv.refl _) = .error assertionError
    ∧ convNoZeroIn.forward oneExp oneInvSqrt false (idDrop 1) g1 zeroFeat none
        (Equiv.refl _)
      = .ok (fun v h d =>
          convNoZeroIn.forwardBody oneExp oneInvSqrt false (idDrop 1) g1
            zeroFeat none (Equiv.refl _) v h d) :=
  ⟨(zero_in_degree_assertion convNoZeroIn oneExp oneInvSqrt false (idDrop 1)
      gNoIn zeroFeat none (Equiv.refl _)).1 rfl ⟨0, by decide, by decide⟩,
    (zero_in_degree_assertion convNoZeroIn oneExp oneInvSqrt false (idDrop 1)
      g1 zeroFeat none (Equiv.refl _)).2
      (Or.inr (by decide))⟩

/-- C7: degree-based normalization in `GATConv.forward` never divides by
zero: degrees are clamped to at least 1 before the reciprocal (left/right)
or the power -0.5 (both) is taken, so the divisor is nonzero for every
graph, and a zero-out-degree (respectively zero-in-degree) node receives
source (respectively destination) normalization factor 1.  The hypothesis
`invSqrt 1 = 1` is the fact `1 ^ (-1/2) = 1` about the modelled power. -/
theorem degree_floor_no_div_by_zero {nf ne D H : ℕ} (c : GATConv nf ne D H)
    (invSqrt : ℕ → ℚ) (hinv : invSqrt 1 = 1) (g : DGLGraph) (u v : ℕ) :
    (((max (g.outDeg u) 1 : ℕ) : ℚ) ≠ 0 ∧ ((max (g.inDeg v) 1 : ℕ) : ℚ) ≠ 0)
    ∧ (g.outDeg u = 0 → c.srcNormFactor invSqrt g u = 1)
    ∧ (g.inDeg v = 0 → c.dstNormFactor invSqrt g v = 1) := by
  have hmax : ∀ n : ℕ, max n 1 ≠ 0 := fun n =>
    Nat.one_le_iff_ne_zero.mp (le_max_right _ _)
  refine ⟨⟨Nat.cast_ne_zero.mpr (hmax _), Nat.cast_ne_zero.mpr (hmax _)⟩, ?_, ?_⟩
  · intro h0
    unfold GATConv.srcNormFactor
    rw [h0]
    split_ifs <;> simp [hinv]
  · intro h0
    unfold GATConv.dstNormFactor
    rw [h0]
    split_ifs <;> simp [hinv]

/-- Witness for C7 on a graph with a zero-out-degree and a zero-in-degree
node, with the stand-in for the clamped power that satisfies the
hypothesis. -/
theorem degree_floor_no_div_by_zero_witness :
    oneInvSqrt 1 = 1
    ∧ ((((max (gNoIn.outDeg 1) 1 : ℕ) : ℚ) ≠ 0
          ∧ ((max (gNoIn.inDeg 0) 1 : ℕ) : ℚ) ≠ 0)
        ∧ (gNoIn.outDeg 1 = 0 → convSimple.srcNormFactor oneInvSqrt gNoIn 1 = 1)
        ∧ (gNoIn.inDeg 0 = 0 → convSimple.dstNormFactor oneInvSqrt gNoIn 0 = 1)) :=
  ⟨rfl, degree_floor_no_div_by_zero convSimple oneInvSqrt rfl gNoIn 1 0⟩

/-- C1: for every graph in which every destination node has in-degree at
least 1, and with edge dropout disabled (evaluation mode, attention dropout
the identity), the per-edge attention weights computed by `GATConv.forward`
— the segment softmax of the leaky-ReLU logits grouped by destination node
— sum to 1 over the incoming edges of each destination node, for each head.
The hypothesis on `expF` is the positivity of the exponential. -/
theorem attn_weights_sum_to_one {nf ne D H : ℕ} (c : GATConv nf ne D H)
    (expF : ℚ → ℚ) (g : DGLGraph) (x : ℕ → Fin nf → ℚ)
    (eIn : Option (ℕ → Fin ne → ℚ)) (perm : Equiv.Perm (Fin g.edges.length))
    (hexp : ∀ q, 0 < expF q)
    (hdeg : ∀ v, v < g.numDstNodes → 1 ≤ g.inDeg v)
    (v : ℕ) (hv : v < g.numDstNodes) (h : Fin H) :
    ∑ i in Finset.univ.filter
        (fun i : Fin g.edges.length => (g.edges.get i).2 = v),
      c.attn expF false (idDrop H) g x eIn perm i h = 1 := by
  have hne : (Finset.univ.filter
      (fun i : Fin g.edges.length => (g.edges.get i).2 = v)).Nonempty := by
    rw [← Finset.card_pos, ← inDeg_eq_card]
    exact hdeg v hv
  have hT : 0 < ∑ j in Finset.univ.filter
      (fun j : Fin g.edges.length => (g.edges.get j).2 = v),
      expF (c.attnLogits g x x eIn j h) :=
    Finset.sum_pos (fun j _ => hexp _) hne
  have hstep : ∀ i ∈ Finset.univ.filter
      (fun i : Fin g.edges.length => (g.edges.get i).2 = v),
      c.attn expF false (idDrop H) g x eIn perm i h
        = expF (c.attnLogits g x x eIn i h) /
            ∑ j in Finset.univ.filter
              (fun j : Fin g.edges.length => (g.edges.get j).2 = v),
              expF (c.attnLogits g x x eIn j h) := by
    intro i hi
    have hdst : (g.edges.get i).2 = v := (Finset.mem_filter.mp hi).2
    unfold GATConv.attn
    rw [if_neg (by simp)]
    unfold idDrop edge_softmax
    simp only [hdst]
  rw [Finset.sum_congr rfl hstep, ← Finset.sum_div, div_self hT.ne']

/-- Witness for C1 on the one-node self-loop graph. -/
theorem attn_weights_sum_to_one_witness :
    (0 : ℚ) < oneExp 0 ∧ 1 ≤ g1.inDeg 0
    ∧ ∑ i in Finset.univ.filter
        (fun i : Fin g1.edges.length => (g1.edges.get i).2 = 0),
      convSimple.attn oneExp false (idDrop 1) g1 zeroFeat none (Equiv.refl _)
        i ⟨0, by decide⟩ = 1 :=
  ⟨one_pos, by decide,
    attn_weights_sum_to_one convSimple oneExp g1 zeroFeat none (Equiv.refl _)
      (fun _ => one_pos)
      (by
        intro v hv
        have hv0 : v = 0 := by
          have : g1.numDstNodes = 1 := rfl
          omega
        subst hv0
        decide)
      0 (by decide) ⟨0, by decide⟩⟩

theorem dropoutBound_le (E : ℕ) (p : ℚ) (hp1 : p ≤ 1) :
    dropoutBound E p ≤ E := by
  unfold dropoutBound
  have h1 : (E : ℚ) * p ≤ (E : ℚ) := by
    calc (E : ℚ) * p ≤ (E : ℚ) * 1 :=
          mul_le_mul_of_nonneg_left hp1 (Nat.cast_nonneg E)
    _ = (E : ℚ) := mul_one _
  have h2 : ⌊(E : ℚ) * p⌋ ≤ (E : ℤ) := by
    calc ⌊(E : ℚ) * p⌋ ≤ ⌊(E : ℚ)⌋ := Int.floor_le_floor h1
    _ = (E : ℤ) := Int.floor_natCast E
  exact Int.toNat_le.mpr h2

theorem survivors_card (g : DGLGraph) (p : ℚ)
    (perm : Equiv.Perm (Fin g.edges.length)) :
    (survivors g p perm).card
      = g.edges.length - dropoutBound g.edges.length p := by
  classical
  have hcard : (survivors g p perm).card
      = (Finset.Ico (dropoutBound g.edges.length p) g.edges.length).card := by
    apply Finset.card_bij
      (fun i _ => ((perm.symm i : Fin g.edges.length) : ℕ))
    · intro a ha
      rw [Finset.mem_Ico]
      exact ⟨(Finset.mem_filter.mp ha).2, (perm.symm a).2⟩
    · intro a1 ha1 a2 ha2 heq
      exact perm.symm.injective (Fin.val_injective heq)
    · intro m hm
      rw [Finset.mem_Ico] at hm
      refine ⟨perm ⟨m, hm.2⟩, ?_, ?_⟩
      · rw [survivors, Finset.mem_filter]
        refine ⟨Finset.mem_univ _, ?_⟩
        rw [Equiv.symm_apply_apply]
        exact hm.1
      · rw [Equiv.symm_apply_apply]
  rw [hcard, Nat.card_Ico]

/-- C2 counterexample: the claim as stated — that a training-mode forward
pass has exactly `round(E * (1 - p))` edges surviving edge dropout — is
false: the code keeps `E - int(E * p)` edges, the ceiling of `E * (1 - p)`.
On a graph with 10 edges and `p = 0.26`, 8 edges survive while
`round(10 * 0.74) = 7`. -/
theorem edge_dropout_round_count_false :
    ¬ (∀ (g : DGLGraph) (p : ℚ) (perm : Equiv.Perm (Fin g.edges.length)),
        0 < p → p ≤ 1 →
        ((survivors g p perm).card : ℤ)
          = round ((g.numEdges : ℚ) * (1 - p))) := by
  intro hclaim
  have h := hclaim g10 (26/100) (Equiv.refl _) (by norm_num) (by norm_num)
  have hb : dropoutBound g10.edges.length (26/100) = 2 := by
    have hlen : g10.edges.length = 10 := by
      simp [g10]
    rw [hlen]
    norm_num [dropoutBound]
    decide
  have hcard : (survivors g10 (26/100) (Equiv.refl _)).card = 8 := by
    unfold survivors
    simp only [hb]
    decide
  have hround : round ((g10.numEdges : ℚ) * (1 - 26/100)) = 7 := by
    have hlen : g10.numEdges = 10 := by
      simp [g10, DGLGraph.numEdges]
    rw [hlen]
    norm_num [round_eq]
  rw [hcard, hround] at h
  norm_num at h

/-- C2 (amended): for every graph with `E` edges and configured edge-dropout
fraction `0 < p ≤ 1`, a training-mode forward pass of `GATConv` has exactly
`E - int(E * p)` (the ceiling of `E * (1 - p)`, not its rounding) edges
surviving: all other edges get attention weight zero, and the softmax
normalization of each surviving edge is computed only over the surviving
subset of edges sharing its destination. -/
theorem edge_dropout_surviving_subset {nf ne D H : ℕ} (c : GATConv nf ne D H)
    (expF : ℚ → ℚ) (g : DGLGraph) (x : ℕ → Fin nf → ℚ)
    (eIn : Option (ℕ → Fin ne → ℚ)) (perm : Equiv.Perm (Fin g.edges.length))
    (hp0 : 0 < c.edgeDropout) :
    (survivors g c.edgeDropout perm).card
        = g.numEdges - dropoutBound g.numEdges c.edgeDropout
    ∧ (∀ i : Fin g.edges.length, i ∉ survivors g c.edgeDropout perm →
        ∀ h : Fin H, c.attn expF true (idDrop H) g x eIn perm i h = 0)
    ∧ (∀ i ∈ survivors g c.edgeDropout perm, ∀ h : Fin H,
        c.attn expF true (idDrop H) g x eIn perm i h
          = expF (c.attnLogits g x x eIn i h) /
              ∑ j in (survivors g c.edgeDropout perm).filter
                  (fun j => (g.edges.get j).2 = (g.edges.get i).2),
                expF (c.attnLogits g x x eIn j h)) := by
  refine ⟨survivors_card g c.edgeDropout perm, ?_, ?_⟩
  · intro i hi h
    unfold GATConv.attn
    rw [if_pos ⟨rfl, hp0⟩, if_neg hi]
  · intro i hi h
    unfold GATConv.attn
    rw [if_pos ⟨rfl, hp0⟩, if_pos hi]
    rfl

/-- Witness for C2 (amended) on the ten-edge graph with `p = 0.26`:
8 = 10 - 2 edges survive. -/
theorem edge_dropout_surviving_subset_witness :
    (0 : ℚ) < convDrop.edgeDropout
    ∧ (survivors g10 convDrop.edgeDropout (Equiv.refl _)).card
        = g10.numEdges - dropoutBound g10.numEdges convDrop.edgeDropout :=
  ⟨by norm_num [convDrop],
    (edge_dropout_surviving_subset convDrop oneExp g10 zeroFeat none
      (Equiv.refl _) (by norm_num [convDrop])).1⟩

theorem logRunLoop_descend (L : ℕ → ℚ) (patience k : ℕ) (hp : 0 < patience)
    (hdec : ∀ j, j + 1 ≤ k → L (j + 1) < L j) :
    ∀ j, j ≤ k → ∀ fuel,
      logRunLoop L (fuel + (j + 1)) 0 ⟨patience, none, 0⟩
        = logRunLoop L fuel (j + 1) ⟨patience, some (j, L j), 0⟩ := by
  have hns : ¬ (patience ≤ 0) := by omega
  intro j
  induction j with
  | zero =>
    intro _ fuel
    simp only [logRunLoop, Callback.create, Callback.shouldStop]
    simp [hns]
  | succ n ih =>
    intro hle fuel
    have h1 := ih (by omega) (fuel + 1)
    have harith : (fuel + 1) + (n + 1) = fuel + (n + 1 + 1) := by omega
    rw [harith] at h1
    rw [h1]
    have himp : L (n + 1) < L n := hdec n (by omega)
    simp only [logRunLoop, Callback.create, Callback.shouldStop]
    simp [himp, hns]

theorem logRunLoop_climb (L : ℕ → ℚ) (patience k : ℕ)
    (hinc : ∀ i, k ≤ i → L i < L (i + 1)) :
    ∀ d c fuel, c + d = patience → 0 < d →
      logRunLoop L (fuel + d) (k + 1 + c) ⟨patience, some (k, L k), c⟩
        = (k + patience + 1, ⟨patience, some (k, L k), patience⟩) := by
  have hchain : ∀ m, L k < L (k + 1 + m) := by
    intro m
    induction m with
    | zero => simpa using hinc k le_rfl
    | succ n ihn =>
      have hstep := hinc (k + 1 + n) (by omega)
      calc L k < L (k + 1 + n) := ihn
      _ < L (k + 1 + n + 1) := hstep
  intro d
  induction d with
  | zero =>
    intro c fuel _ hd
    exact absurd hd (lt_irrefl 0)
  | succ n ih =>
    intro c fuel hc _
    have hni : ¬ (L (k + 1 + c) < L k) := not_lt_of_gt (hchain c)
    by_cases hstop : patience ≤ c + 1
    · have hn0 : n = 0 := by omega
      subst hn0
      have hcp : c + 1 = patience := by omega
      simp only [logRunLoop, Callback.create, Callback.shouldStop]
      simp only [hni, if_false]
      simp [hstop]
      constructor
      · omega
      · rw [hcp]
    · have h2 := ih (c + 1) fuel (by omega) (by omega)
      simp only [logRunLoop, Callback.create, Callback.shouldStop]
      simp only [hni, if_false]
      simp only [decide_eq_true_eq, if_neg hstop]
      have harith : k + 1 + c + 1 = k + 1 + (c + 1) := by omega
      rw [harith]
      exact h2

theorem log_run_valley (patience numEpochs k : ℕ) (L : ℕ → ℚ)
    (hp : 0 < patience) (hN : k + patience < numEpochs)
    (hdec : ∀ j, j + 1 ≤ k → L (j + 1) < L j)
    (hinc : ∀ i, k ≤ i → L i < L (i + 1)) :
    log_run patience numEpochs L
      = (k + patience + 1, ⟨patience, some (k, L k), patience⟩) := by
  unfold log_run
  have h1 := logRunLoop_descend L patience k hp hdec k le_rfl
    (numEpochs - (k + 1))
  have harith : numEpochs - (k + 1) + (k + 1) = numEpochs := by omega
  rw [harith] at h1
  rw [h1]
  have h2 := logRunLoop_climb L patience k hinc patience 0
    (numEpochs - (k + 1) - patience) (by omega) hp
  have harith2 : (numEpochs - (k + 1) - patience) + patience
      = numEpochs - (k + 1) := by omega
  rw [harith2] at h2
  simpa using h2

/-- C8 counterexample: the claim as stated — for every monitored-loss
sequence that strictly increases after some epoch `k`, the loop halts at
epoch `k + patience` with the best snapshot at epoch `k` — is false: with
losses 1, 5, 6, 7, ... (strictly increasing after epoch 1), patience 1 and
500-style budget 10, the loop halts after epoch 1 (two epochs run, not
three) and the best snapshot is epoch 0, not epoch 1. -/
theorem early_stopping_as_stated_false :
    ¬ (∀ (L : ℕ → ℚ) (k patience numEpochs : ℕ), 0 < patience →
        k + patience < numEpochs → (∀ i, k ≤ i → L i < L (i + 1)) →
        (log_run patience numEpochs L).1 = k + patience + 1
          ∧ Option.map Prod.fst ((log_run patience numEpochs L).2).best
              = some k) := by
  intro hclaim
  have hallinc : ∀ i, lossRise i < lossRise (i + 1) := by
    intro i
    unfold lossRise
    rcases Nat.eq_zero_or_pos i with h0 | hpos
    · subst h0
      norm_num
    · have h1 : ¬ (i = 0) := by omega
      have h2 : ¬ (i + 1 = 0) := by omega
      rw [if_neg h1, if_neg h2]
      push_cast
      linarith
  have hfacts := hclaim lossRise 1 1 10 one_pos (by omega)
    (fun i _ => hallinc i)
  have hrun := log_run_valley 1 10 0 lossRise one_pos (by omega)
    (fun j hj => absurd hj (by omega)) (fun i _ => hallinc i)
  rw [hrun] at hfacts
  have h1 := hfacts.1
  omega

/-- C8 (amended): for every monitored-loss sequence that strictly decreases
up to epoch `k` and strictly increases after epoch `k`, with positive
patience and `k + patience < numEpochs`, the epoch loop of `log_run` halts
at epoch `k + patience` — running `k + patience + 1` epochs, never the
remaining configured ones — and the retained best snapshot is the one
recorded at epoch `k`.  (As stated the claim omitted the decreasing prefix;
without it the loop can stop earlier with an earlier best epoch.) -/
theorem early_stopping_valley (patience numEpochs k : ℕ) (L : ℕ → ℚ)
    (hp : 0 < patience) (hN : k + patience < numEpochs)
    (hdec : ∀ j, j + 1 ≤ k → L (j + 1) < L j)
    (hinc : ∀ i, k ≤ i → L i < L (i + 1)) :
    (log_run patience numEpochs L).1 = k + patience + 1
    ∧ ((log_run patience numEpochs L).2).best = some (k, L k) := by
  rw [log_run_valley patience numEpochs k L hp hN hdec hinc]
  exact ⟨rfl, rfl⟩

/-- Witness for C8 (amended) on the valley sequence 10, 9, 8, 9, 10, ...
with `k = 2` and patience 2: five epochs run, best at epoch 2. -/
theorem early_stopping_valley_witness :
    0 < 2 ∧ 2 + 2 < 10
    ∧ (log_run 2 10 lossValley).1 = 2 + 2 + 1
    ∧ ((log_run 2 10 lossValley).2).best = some (2, lossValley 2) := by
  have hdec : ∀ j, j + 1 ≤ 2 → lossValley (j + 1) < lossValley j := by
    intro j hj
    unfold lossValley
    have hjle : j ≤ 2 := by omega
    rw [if_pos hj, if_pos hjle]
    push_cast
    linarith
  have hinc : ∀ i, 2 ≤ i → lossValley i < lossValley (i + 1) := by
    intro i hi
    unfold lossValley
    rcases eq_or_lt_of_le hi with h1 | h1
    · rw [← h1]
      norm_num
    · have hn1 : ¬ (i ≤ 2) := by omega
      have hn2 : ¬ (i + 1 ≤ 2) := by omega
      rw [if_neg hn1, if_neg hn2]
      push_cast
      linarith
  have h := early_stopping_valley 2 10 2 lossValley (by omega) (by omega)
    hdec hinc
  exact ⟨by omega, by omega, h.1, h.2⟩

theorem sum_bij_edges {M : Type} [AddCommMonoid M] (B G : DGLGraph) (v : ℕ)
    (φ : Fin B.edges.length → Fin G.edges.length)
    (hφinj : Function.Injective φ)
    (hφdst : ∀ j, (G.edges.get j).2 = v → ∃ i, φ i = j)
    (hφv : ∀ i, (G.edges.get (φ i)).2 = v)
    (hBdst : ∀ i, (B.edges.get i).2 = 0)
    (t : Fin G.edges.length → M) :
    ∑ i in Finset.univ.filter
        (fun i : Fin B.edges.length => (B.edges.get i).2 = 0), t (φ i)
      = ∑ j in Finset.univ.filter
          (fun j : Fin G.edges.length => (G.edges.get j).2 = v), t j := by
  apply Finset.sum_bij (fun i _ => φ i)
  · intro a _
    exact Finset.mem_filter.mpr ⟨Finset.mem_univ _, hφv a⟩
  · intro a1 _ a2 _ hh
    exact hφinj hh
  · intro j hj
    obtain ⟨i, hi⟩ := hφdst j (Finset.mem_filter.mp hj).2
    exact ⟨i, Finset.mem_filter.mpr ⟨Finset.mem_univ _, hBdst i⟩, hi⟩
  · intro a _
    rfl

theorem inDeg_transport (B G : DGLGraph) (v : ℕ)
    (φ : Fin B.edges.length → Fin G.edges.length)
    (hφinj : Function.Injective φ)
    (hφdst : ∀ j, (G.edges.get j).2 = v → ∃ i, φ i = j)
    (hφv : ∀ i, (G.edges.get (φ i)).2 = v)
    (hBdst : ∀ i, (B.edges.get i).2 = 0) :
    B.inDeg 0 = G.inDeg v := by
  rw [inDeg_eq_card, inDeg_eq_card, Finset.card_eq_sum_ones,
    Finset.card_eq_sum_ones]
  exact sum_bij_edges B G v φ hφinj hφdst hφv hBdst (fun _ => 1)

theorem attnLogits_transport {nf ne D H : ℕ} (c : GATConv nf ne D H)
    (B G : DGLGraph) (X XB : ℕ → Fin nf → ℚ)
    (eInG eInB : Option (ℕ → Fin ne → ℚ)) (σ : ℕ → ℕ) (v : ℕ)
    (φ : Fin B.edges.length → Fin G.edges.length)
    (hσ0 : σ 0 = v) (hX : ∀ u, XB u = X (σ u))
    (hφsrc : ∀ i, (G.edges.get (φ i)).1 = σ (B.edges.get i).1)
    (hφv : ∀ i, (G.edges.get (φ i)).2 = v)
    (hBdst : ∀ i, (B.edges.get i).2 = 0)
    (hEF : (eInG = none ∧ eInB = none)
      ∨ ∃ efG efB, eInG = some efG ∧ eInB = some efB
          ∧ ∀ i : Fin B.edges.length, efB i.1 = efG (φ i).1)
    (i : Fin B.edges.length) (h : Fin H) :
    c.attnLogits B XB XB eInB i h = c.attnLogits G X X eInG (φ i) h := by
  have hsrc : XB (B.edges.get i).1 = X (G.edges.get (φ i)).1 := by
    rw [hφsrc i, hX]
  have hdst : XB (B.edges.get i).2 = X (G.edges.get (φ i)).2 := by
    rw [hBdst i, hφv i, hX 0, hσ0]
  simp only [List.get_eq_getElem] at hsrc hdst
  unfold GATConv.attnLogits
  rcases hEF with ⟨hg, hb⟩ | ⟨efG, efB, hg, hb, hfe⟩
  · subst hg
    subst hb
    cases c.attnFcDst <;> simp [hsrc, hdst]
  · subst hg
    subst hb
    cases c.attnFcDst <;> cases hce : c.attnFcEdge <;>
      simp [hsrc, hdst, hfe i]

/-- C3 (amended): for a single `GATConv` layer in evaluation mode, the
output at a destination node `v` computed on the full graph equals the
output computed at the corresponding destination of a sampled block, when
the entire incoming neighborhood of `v` is included in the block (the block
edges are in bijection with the in-edges of `v`, features and edge features
correspond along the block-to-graph node map `σ`), for every configuration
whose normalization does not use out-degrees (`norm` is "none" or "right").
As stated — for every configuration — the claim fails, because with norm
"left" or "both" the source normalization divides by out-degrees, which the
block computes from its own restricted edge set. -/
theorem block_full_equiv_no_outdeg_norm {nf ne D H : ℕ}
    (c : GATConv nf ne D H) (expF : ℚ → ℚ) (invSqrt : ℕ → ℚ)
    (G B : DGLGraph) (X XB : ℕ → Fin nf → ℚ)
    (eInG eInB : Option (ℕ → Fin ne → ℚ)) (σ : ℕ → ℕ) (v : ℕ)
    (φ : Fin B.edges.length → Fin G.edges.length)
    (permG : Equiv.Perm (Fin G.edges.length))
    (permB : Equiv.Perm (Fin B.edges.length))
    (hnorm : c.norm = "none" ∨ c.norm = "right")
    (hσ0 : σ 0 = v) (hX : ∀ u, XB u = X (σ u))
    (hφinj : Function.Injective φ)
    (hφdst : ∀ j, (G.edges.get j).2 = v → ∃ i, φ i = j)
    (hφsrc : ∀ i, (G.edges.get (φ i)).1 = σ (B.edges.get i).1)
    (hφv : ∀ i, (G.edges.get (φ i)).2 = v)
    (hBdst : ∀ i, (B.edges.get i).2 = 0)
    (hEF : (eInG = none ∧ eInB = none)
      ∨ ∃ efG efB, eInG = some efG ∧ eInB = some efB
          ∧ ∀ i : Fin B.edges.length, efB i.1 = efG (φ i).1)
    (h : Fin H) (d : Fin D) :
    c.forwardBody expF invSqrt false (idDrop H) B XB eInB permB 0 h d
      = c.forwardBody expF invSqrt false (idDrop H) G X eInG permG v h d := by
  have hnb : c.norm ≠ "both" := by
    rcases hnorm with hn | hn <;> rw [hn] <;> decide
  have hnl : c.norm ≠ "left" := by
    rcases hnorm with hn | hn <;> rw [hn] <;> decide
  have hlog : ∀ (j : Fin B.edges.length) (h' : Fin H),
      c.attnLogits B XB XB eInB j h' = c.attnLogits G X X eInG (φ j) h' :=
    fun j h' => attnLogits_transport c B G X XB eInG eInB σ v φ hσ0 hX
      hφsrc hφv hBdst hEF j h'
  have hattn : ∀ j : Fin B.edges.length,
      c.attn expF false (idDrop H) B XB eInB permB j h
        = c.attn expF false (idDrop H) G X eInG permG (φ j) h := by
    intro j
    unfold GATConv.attn
    rw [if_neg (by simp), if_neg (by simp)]
    unfold idDrop edge_softmax
    have hdB : (B.edges.get j).2 = 0 := hBdst j
    have hdG : (G.edges.get (φ j)).2 = v := hφv j
    simp only [hdB, hdG, hlog j h]
    congr 1
    calc ∑ j' in Finset.univ.filter
          (fun j' : Fin B.edges.length => (B.edges.get j').2 = 0),
          expF (c.attnLogits B XB XB eInB j' h)
        = ∑ j' in Finset.univ.filter
            (fun j' : Fin B.edges.length => (B.edges.get j').2 = 0),
            expF (c.attnLogits G X X eInG (φ j') h) :=
          Finset.sum_congr rfl (fun j' _ => by rw [hlog j' h])
      _ = ∑ j' in Finset.univ.filter
            (fun j' : Fin G.edges.length => (G.edges.get j').2 = v),
            expF (c.attnLogits G X X eInG j' h) :=
          sum_bij_edges B G v φ hφinj hφdst hφv hBdst
            (fun j' => expF (c.attnLogits G X X eInG j' h))
  have hfeat : ∀ j : Fin B.edges.length,
      c.featFcSrcN invSqrt B XB (B.edges.get j).1 h d
        = c.featFcSrcN invSqrt G X (G.edges.get (φ j)).1 h d := by
    intro j
    unfold GATConv.featFcSrcN GATConv.srcNormFactor
    rw [if_neg hnb, if_neg hnl, if_neg hnb, if_neg hnl, one_mul, one_mul,
      hφsrc j, hX]
  have hagg : c.aggregated expF invSqrt false (idDrop H) B XB eInB permB 0 h d
      = c.aggregated expF invSqrt false (idDrop H) G X eInG permG v h d := by
    unfold GATConv.aggregated
    rw [← sum_bij_edges B G v φ hφinj hφdst hφv hBdst
      (fun j => c.featFcSrcN invSqrt G X (G.edges.get j).1 h d
        * c.attn expF false (idDrop H) G X eInG permG j h)]
    exact Finset.sum_congr rfl (fun j _ => by rw [hattn j, hfeat j])
  have hdeg : B.inDeg 0 = G.inDeg v :=
    inDeg_transport B G v φ hφinj hφdst hφv hBdst
  have hnormf : c.dstNormFactor invSqrt B 0 = c.dstNormFactor invSqrt G v := by
    unfold GATConv.dstNormFactor
    rw [if_neg hnb, if_neg hnb, hdeg]
  have hres0 : XB 0 = X v := by
    rw [hX 0, hσ0]
  unfold GATConv.forwardBody
  rw [hagg, hnormf, hres0]

/-- C3 counterexample: the claim as stated quantifies over every choice of
the layer configuration, including norm "left"; there the source features
are scaled by the reciprocal out-degree, which the block computes from its
own restricted edge set.  On `gFull3` (node 0 with out-degree 2) versus the
block `gBlock3` containing the whole incoming neighborhood of node 1, the
block output is 1 while the full-graph output is 1/2. -/
theorem block_full_equiv_all_configs_false :
    ¬ (∀ (nf ne D H : ℕ) (c : GATConv nf ne D H) (expF : ℚ → ℚ)
        (invSqrt : ℕ → ℚ) (G B : DGLGraph) (X XB : ℕ → Fin nf → ℚ)
        (eInG eInB : Option (ℕ → Fin ne → ℚ)) (σ : ℕ → ℕ) (v : ℕ)
        (φ : Fin B.edges.length → Fin G.edges.length)
        (permG : Equiv.Perm (Fin G.edges.length))
        (permB : Equiv.Perm (Fin B.edges.length)),
        σ 0 = v → (∀ u, XB u = X (σ u)) → Function.Injective φ →
        (∀ j, (G.edges.get j).2 = v → ∃ i, φ i = j) →
        (∀ i, (G.edges.get (φ i)).1 = σ (B.edges.get i).1) →
        (∀ i, (G.edges.get (φ i)).2 = v) →
        (∀ i, (B.edges.get i).2 = 0) →
        ((eInG = none ∧ eInB = none)
          ∨ ∃ efG efB, eInG = some efG ∧ eInB = some efB
              ∧ ∀ i : Fin B.edges.length, efB i.1 = efG (φ i).1) →
        ∀ h d, c.forwardBody expF invSqrt false (idDrop H) B XB eInB permB 0 h d
          = c.forwardBody expF invSqrt false (idDrop H) G X eInG permG v h d) := by
  intro hclaim
  have heq := hclaim 1 0 1 1 convLeftNorm oneExp oneInvSqrt gFull3 gBlock3
    onesFeat onesFeat none none sigma3 1 (fun _ => ⟨0, by decide⟩)
    (Equiv.refl _) (Equiv.refl _) (by decide) (fun _ => rfl)
    (by
      intro a b _
      have ha : (a : ℕ) < 1 := a.2
      have hb : (b : ℕ) < 1 := b.2
      exact Fin.ext (by omega))
    (by decide) (by decide) (by decide) (by decide)
    (Or.inl ⟨rfl, rfl⟩) ⟨0, by decide⟩ ⟨0, by decide⟩
  have hBval : convLeftNorm.forwardBody oneExp oneInvSqrt false (idDrop 1)
      gBlock3 onesFeat none (Equiv.refl _) 0 ⟨0, by decide⟩ ⟨0, by decide⟩
        = 1 := by
    simp [GATConv.forwardBody, GATConv.aggregated, GATConv.featFcSrcN,
      GATConv.srcNormFactor, GATConv.dstNormFactor, GATConv.attn,
      GATConv.attnLogits, edge_softmax, idDrop, leakyRelu, survivors,
      convLeftNorm, convSimple, gBlock3, onesFeat, oneExp, oneInvSqrt,
      DGLGraph.outDeg, DGLGraph.inDeg, Finset.sum_filter, Fin.sum_univ_succ,
      List.get]
  have hGval : convLeftNorm.forwardBody oneExp oneInvSqrt false (idDrop 1)
      gFull3 onesFeat none (Equiv.refl _) 1 ⟨0, by decide⟩ ⟨0, by decide⟩
        = 1/2 := by
    simp [GATConv.forwardBody, GATConv.aggregated, GATConv.featFcSrcN,
      GATConv.srcNormFactor, GATConv.dstNormFactor, GATConv.attn,
      GATConv.attnLogits, edge_softmax, idDrop, leakyRelu, survivors,
      convLeftNorm, convSimple, gFull3, onesFeat, oneExp, oneInvSqrt,
      DGLGraph.outDeg, DGLGraph.inDeg, Finset.sum_filter, Fin.sum_univ_succ,
      List.get]
    decide
  rw [hBval, hGval] at heq
  norm_num at heq

/-- Witness for C3 (amended) with the trivial configuration (norm "none")
on the same block/full-graph pair. -/
theorem block_full_equiv_no_outdeg_norm_witness :
    (convSimple.norm = "none" ∨ convSimple.norm = "right")
    ∧ sigma3 0 = 1
    ∧ convSimple.forwardBody oneExp oneInvSqrt false (idDrop 1) gBlock3
        onesFeat none (Equiv.refl _) 0 ⟨0, by decide⟩ ⟨0, by decide⟩
      = convSimple.forwardBody oneExp oneInvSqrt false (idDrop 1) gFull3
        onesFeat none (Equiv.refl _) 1 ⟨0, by decide⟩ ⟨0, by decide⟩ :=
  ⟨Or.inl rfl, by decide,
    block_full_equiv_no_outdeg_norm convSimple oneExp oneInvSqrt gFull3
      gBlock3 onesFeat onesFeat none none sigma3 1 (fun _ => ⟨0, by decide⟩)
      (Equiv.refl _) (Equiv.refl _) (Or.inl rfl) (by decide) (fun _ => rfl)
      (by
        intro a b _
        have ha : (a : ℕ) < 1 := a.2
        have hb : (b : ℕ) < 1 := b.2
        exact Fin.ext (by omega))
      (by decide) (by decide) (by decide) (by decide)
      (Or.inl ⟨rfl, rfl⟩) ⟨0, by decide⟩ ⟨0, by decide⟩⟩

end GATRepo
